import Mathlib

/-!
Verification of the credit-scorecard pipeline functions of the portfolio
repository (`src/pages/bankingprojects/`).

The shallow embedding models a pandas DataFrame as a list of named columns,
each column a list of optional rationals (`none` = missing / NaN).  Float
arithmetic of the source is idealised as exact arithmetic over `ℚ`, and the
transcendental pieces (`np.log` in the WoE computation, the least-squares
fit inside `statsmodels`' `variance_inflation_factor`) over `ℝ`.  `md5`
digests are modelled by the digested strings themselves (an injective
stand-in, which abstracts hash collisions away).

Embedded source functions (names kept):
* `iv_woe_functions.py`: `step4_calculate_woe_iv_for_variable`
* `collinear_functions.py`: `find_high_correlation_pairs`,
  `identify_vars_to_drop_correlation`, `apply_correlation_filter`,
  `calculate_vif`, `identify_vars_to_drop_vif`, `apply_vif_filter`
* `LGD_EAD_Var_reduction.py`: `stage4_near_zero_variance_filtering`
* `logreg_model_functions.py`: `score_data`, `create_deciles`
* `var_meta_functions.py`: `step7_duplicate_columns`,
  `step7_get_duplicate_list`, `step8_drop_duplicates`
-/

attribute [local semireducible] Rat.mul Rat.inv Rat.add Rat.sub

namespace Portfolio

/-- A pandas column: one optional rational per row (`none` models NaN). -/
abbrev Col := List (Option ℚ)

/-- A pandas DataFrame: named columns.  All columns are numeric, which is
the fragment the verified pipeline functions operate on (they start from
`select_dtypes(include=[np.number])`). -/
structure DFrame where
  cols : List (String × Col)
deriving DecidableEq

/-- The column names, in order. -/
def DFrame.names (df : DFrame) : List String := df.cols.map Prod.fst

/-- Look a column up by name (first match, as pandas column access). -/
def DFrame.get? (df : DFrame) (n : String) : Option Col :=
  (df.cols.find? (fun c => c.1 = n)).map Prod.snd

/-- `len(df)`: number of rows, read off the first column (frames are
rectangular). -/
def DFrame.numRows (df : DFrame) : ℕ :=
  match df.cols with
  | [] => 0
  | c :: _ => c.2.length

/-- A DFrame is rectangular when every column has `numRows` entries. -/
def DFrame.Rect (df : DFrame) : Prop :=
  ∀ c ∈ df.cols, c.2.length = df.numRows

instance (df : DFrame) : Decidable df.Rect := by
  unfold DFrame.Rect; infer_instance

/-- `df[n] = v`: replace the column when the name exists, else append it
(the pandas `df['n'] = v` assignment). -/
def DFrame.setCol (df : DFrame) (n : String) (v : Col) : DFrame :=
  if n ∈ df.names then
    ⟨df.cols.map (fun c => if c.1 = n then (n, v) else c)⟩
  else
    ⟨df.cols ++ [(n, v)]⟩

/-! ### pandas `qcut` (labels=False, duplicates='drop')

`pd.qcut(x, q)` computes `q+1` linearly interpolated quantiles of the
non-null values, drops duplicated bin edges (except when there are exactly
two edges), and assigns integer codes by a left-sided `searchsorted` with
the lowest edge included in the first bin; codes falling outside the edge
range become NaN (`none`). -/

/-- Linear-interpolation quantile of an already sorted list, the pandas /
numpy default: position `h = p * (n-1)`, value `x⌊h⌋ + (h - ⌊h⌋) * (x⌊h⌋₊₁ - x⌊h⌋)`. -/
def quantileAt (xs : List ℚ) (p : ℚ) : ℚ :=
  match xs with
  | [] => 0
  | _ :: _ =>
    let h : ℚ := p * ((xs.length : ℚ) - 1)
    let f : ℕ := (Int.floor h).toNat
    let g : ℚ := h - (Int.floor h : ℚ)
    let xf := xs.getD f 0
    let xf1 := xs.getD (f + 1) xf
    xf + g * (xf1 - xf)

/-- The `q+1` candidate bin edges `np.linspace(0, 1, q+1)`-quantiles. -/
def qcutEdges (xs : List ℚ) (q : ℕ) : List ℚ :=
  (List.range (q + 1)).map (fun (i : ℕ) => quantileAt xs ((i : ℚ) / (q : ℚ)))

/-- `duplicates='drop'`: deduplicate the (sorted) edges, except that a
2-edge list is kept as is (`len(bins) != 2` guard in `_bins_to_cuts`). -/
def dropDupEdges (bins : List ℚ) : List ℚ :=
  if bins.length = 2 then bins else bins.dedup

/-- `np.searchsorted(bins, v, side='left')`: index of the first edge `≥ v`. -/
def searchsortedLeft (bins : List ℚ) (v : ℚ) : ℕ :=
  (bins.takeWhile (fun b => b < v)).length

/-- The final bin edges of `pd.qcut(vals, q)`: quantiles of the sorted
non-null values, with duplicate edges dropped. -/
def qcutBins (vals : List (Option ℚ)) (q : ℕ) : List ℚ :=
  dropDupEdges (qcutEdges ((vals.filterMap id).insertionSort (· ≤ ·)) q)

/-- The `_bins_to_cuts` code of one value: left `searchsorted`, then the
`include_lowest` adjustment (`ids[x == bins[0]] = 1`), then the NaN mask
(`ids == len(bins)` or `ids == 0` gives NaN); otherwise the label is
`ids - 1`. -/
def qcutIdx (bins : List ℚ) (v : ℚ) : ℕ :=
  if bins.head? = some v then 1 else searchsortedLeft bins v

/-- The masked label: NaN when the adjusted index hits `0` or `len(bins)`,
else `ids - 1`. -/
def qcutCode (bins : List ℚ) (v : ℚ) : Option ℕ :=
  if qcutIdx bins v = bins.length ∨ qcutIdx bins v = 0 then none
  else some (qcutIdx bins v - 1)

/-- Integer bin codes of `pd.qcut(vals, q, labels=False, duplicates='drop')`:
`none` for null inputs and masked values. -/
def qcutCodes (vals : List (Option ℚ)) (q : ℕ) : List (Option ℕ) :=
  vals.map (fun ov => ov.bind (fun v => qcutCode (qcutBins vals q) v))

/-! ### `step4_calculate_woe_iv_for_variable` (iv_woe_functions.py) -/

/-- One row of the grouped `stats` table before the WoE columns:
`bin`, `bad` (= groupby sum of the target), `total` (= groupby count of
non-null target values) and the derived `good = total - bad` column. -/
structure CRow where
  bin : ℤ
  bad : ℚ
  total : ℚ
  good : ℚ
deriving DecidableEq

/-- One row of the full WoE statistics table.  The float columns `woe` and
`iv_component` are real-valued functions of the row (`rowWoe`, `rowIvComponent`
below); the rational columns are carried in the structure. -/
structure QRow where
  bin : ℤ
  bad : ℚ
  total : ℚ
  good : ℚ
  pct_good : ℚ
  pct_bad : ℚ
deriving DecidableEq

/-- The WoE statistics DataFrame returned by
`step4_calculate_woe_iv_for_variable`: empty (`pd.DataFrame()`), the
bin/bad/total/good table (early return when all goods or all bads are zero),
or the full table with the pct/WoE columns. -/
inductive WoeTable
  | empty : WoeTable
  | counts : List CRow → WoeTable
  | full : List QRow → WoeTable
deriving DecidableEq

/-- The working rows `df[[var, target]].dropna(subset=[var_name])`:
pairs of a (non-null) variable value and the optional target value. -/
def step4Rows (df : DFrame) (var target : String) : List (ℚ × Option ℚ) :=
  match df.get? var, df.get? target with
  | some vc, some tc =>
      (vc.zip tc).filterMap (fun p => p.1.map (fun v => (v, p.2)))
  | _, _ => []

/-- Group the binned rows: bins are qcut codes with NaN filled by `-1`
(`fillna(-1).astype(int)`), groups are the sorted distinct bins (pandas
`groupby` sorts its keys), `bad` is the group sum of non-null target values
and `total` their count, `good = total - bad`; finally the invalid bins
(`bin < 0`) are removed (`stats[stats['bin'] >= 0]`). -/
def step4Stats (rows : List (ℚ × Option ℚ)) (nBins : ℕ) : List CRow :=
  let codes := qcutCodes (rows.map (fun r => some r.1)) nBins
  let bins : List ℤ := codes.map (fun c => (c.map (Int.ofNat)).getD (-1))
  let pairs := bins.zip (rows.map (fun r => r.2))
  let keys := ((pairs.map Prod.fst).dedup).insertionSort (· ≤ ·)
  let grouped := keys.map (fun b =>
    let tgts := (pairs.filter (fun p => p.1 = b)).filterMap (fun p => p.2)
    { bin := b, bad := tgts.sum, total := (tgts.length : ℚ),
      good := (tgts.length : ℚ) - tgts.sum : CRow })
  grouped.filter (fun r => 0 ≤ r.bin)

/-- The pct columns: `pct_good = good / tot_good`, `pct_bad = bad / tot_bad`,
with exact zeros replaced by `0.0001` (`replace(0, 0.0001)`). -/
def mkFull (totGood totBad : ℚ) (stats : List CRow) : List QRow :=
  stats.map (fun r =>
    { bin := r.bin, bad := r.bad, total := r.total, good := r.good,
      pct_good := if r.good / totGood = 0 then 1 / 10000 else r.good / totGood,
      pct_bad := if r.bad / totBad = 0 then 1 / 10000 else r.bad / totBad })

/-- The `woe` column: `np.log(pct_good / pct_bad)`. -/
noncomputable def rowWoe (r : QRow) : ℝ :=
  Real.log ((r.pct_good : ℝ) / (r.pct_bad : ℝ))

/-- The `iv_component` column: `(pct_good - pct_bad) * woe`. -/
noncomputable def rowIvComponent (r : QRow) : ℝ :=
  ((r.pct_good : ℝ) - (r.pct_bad : ℝ)) * rowWoe r

/-- `iv_value = stats['iv_component'].sum()`. -/
noncomputable def ivOf (rows : List QRow) : ℝ :=
  (rows.map rowIvComponent).sum

/-- `tot_good = stats['good'].sum()`. -/
def totGoodOf (stats : List CRow) : ℚ := (stats.map CRow.good).sum

/-- `tot_bad = stats['bad'].sum()`. -/
def totBadOf (stats : List CRow) : ℚ := (stats.map CRow.bad).sum

/-- `step4_calculate_woe_iv_for_variable(df, var_name, target_col, n_bins)`:
returns `(IV value, WoE statistics dataframe)`, with the source's early
returns: `(0.0, pd.DataFrame())` when a column is missing, when no row
survives `dropna`, or when no valid bin remains, and `(0.0, stats)` when
all goods or all bads are zero.  (The `except ValueError` fallback of the
source is unreachable in this model: with `duplicates='drop'`, `qcut`
returns all-NaN codes instead of raising when fewer than two distinct
edges remain.) -/
noncomputable def step4_calculate_woe_iv_for_variable
    (df : DFrame) (var target : String) (nBins : ℕ) : ℝ × WoeTable :=
  if ¬ (var ∈ df.names ∧ target ∈ df.names) then (0, WoeTable.empty)
  else if step4Rows df var target = [] then (0, WoeTable.empty)
  else if step4Stats (step4Rows df var target) nBins = [] then (0, WoeTable.empty)
  else if totGoodOf (step4Stats (step4Rows df var target) nBins) = 0 ∨
          totBadOf (step4Stats (step4Rows df var target) nBins) = 0 then
    (0, WoeTable.counts (step4Stats (step4Rows df var target) nBins))
  else
    (ivOf (mkFull (totGoodOf (step4Stats (step4Rows df var target) nBins))
                  (totBadOf (step4Stats (step4Rows df var target) nBins))
                  (step4Stats (step4Rows df var target) nBins)),
     WoeTable.full (mkFull (totGoodOf (step4Stats (step4Rows df var target) nBins))
                           (totBadOf (step4Stats (step4Rows df var target) nBins))
                           (step4Stats (step4Rows df var target) nBins)))

/-- A target column is binary when every entry is missing, `0` or `1`. -/
def BinaryCol (c : Col) : Prop :=
  ∀ o ∈ c, o = none ∨ o = some 0 ∨ o = some 1

instance : DecidablePred BinaryCol := fun c => by
  unfold BinaryCol; infer_instance

/-- Binary-target condition on working rows. -/
def BinaryRows (rows : List (ℚ × Option ℚ)) : Prop :=
  ∀ q ∈ rows, q.2 = none ∨ q.2 = some 0 ∨ q.2 = some 1

/-- Concrete frame: x spreads over two qcut bins, the single bad sits in
the first bin, so the second bin has zero bads. -/
def dfWoe : DFrame :=
  ⟨[("x", [some 1, some 2, some 3, some 4]),
    ("y", [some 1, some 0, some 0, some 0])]⟩

/-- The WoE statistics table `step4_calculate_woe_iv_for_variable` computes
on `dfWoe` with 2 bins: the second bin's `pct_bad` is the replacement value
`0.0001`, not `0`. -/
def dfWoeRows : List QRow :=
  [⟨0, 1, 2, 1, 1/3, 1⟩, ⟨1, 0, 2, 2, 2/3, 1/10000⟩]

/-- Concrete frame whose two qcut bins each contain one good and one bad. -/
def dfWoeBal : DFrame :=
  ⟨[("x", [some 1, some 2, some 3, some 4]),
    ("y", [some 1, some 0, some 1, some 0])]⟩

/-- The WoE statistics table computed on `dfWoeBal` with 2 bins. -/
def dfWoeBalRows : List QRow :=
  [⟨0, 1, 2, 1, 1/2, 1/2⟩, ⟨1, 1, 2, 1, 1/2, 1/2⟩]

/-! ### `stage4_near_zero_variance_filtering` (LGD_EAD_Var_reduction.py) -/

/-- Mean of a list of rationals (junk `0` on `[]`). -/
def listMean (l : List ℚ) : ℚ := l.sum / (l.length : ℚ)

/-- The pandas test `col_data.std() < 0.01` (sample std, ddof=1), expressed
on the variance: for `n ≥ 2`, `std < 0.01 ↔ var < 0.0001` since
`std = √var ≥ 0`; for `n < 2` the pandas std is NaN and the float
comparison is False. -/
def stdLtHundredth (l : List ℚ) : Bool :=
  if l.length < 2 then false
  else decide ((l.map (fun x => (x - listMean l) ^ 2)).sum / ((l.length : ℚ) - 1)
    < 1 / 10000)

/-- `col_data.min()` of a nonempty list (junk `0` on `[]`, unreachable
behind the `len(col_data) > 0` guard). -/
def colMin : List ℚ → ℚ
  | [] => 0
  | h :: t => t.foldl min h

/-- `col_data.max()` of a nonempty list (junk `0` on `[]`). -/
def colMax : List ℚ → ℚ
  | [] => 0
  | h :: t => t.foldl max h

/-- Stage 4 drop list: numeric columns with at least one non-missing value
and either sample std `< 0.01` or `min == max` (the `isnan` guards of the
source never fire on a nonempty column). -/
def stage4_columns_to_drop (df : DFrame) : List String :=
  df.cols.filterMap (fun c =>
    let nn := c.2.filterMap id
    if nn.isEmpty then none
    else if stdLtHundredth nn || decide (colMin nn = colMax nn) then some c.1
    else none)

/-- `stage4_near_zero_variance_filtering`: the result frame after
`df.drop(columns=columns_to_drop)` (every dropped column exists, so the
pandas missing-label error path is unreachable).  The returned
`variance_df` bookkeeping table is not needed by the claims. -/
def stage4_near_zero_variance_filtering (df : DFrame) : DFrame :=
  ⟨df.cols.filter (fun c => c.1 ∉ stage4_columns_to_drop df)⟩

/-- Concrete frame with a constant column `c` (one missing entry) and a
spread column `x`. -/
def dfVar : DFrame :=
  ⟨[("c", [some 5, none, some 5]), ("x", [some 1, some 2, some 100])]⟩

/-! ### `score_data` and `create_deciles` (logreg_model_functions.py) -/

/-- Row `i` of the feature matrix `df[available_cols].fillna(0)`. -/
def featureRow (df : DFrame) (avail : List String) (i : ℕ) : List ℚ :=
  avail.map (fun c => ((((df.get? c).getD []).getD i none).getD 0))

/-- The predicted `P_1` column, `model.predict_proba(X)[:, 1]`: the trained
`LogisticRegression` is an opaque input of `score_data`, modelled as a
black-box function from a feature row to a probability. -/
def scoreCol (df : DFrame) (model : List ℚ → ℚ) (featureCols : List String) : Col :=
  (List.range df.numRows).map (fun i =>
    some (model (featureRow df (featureCols.filter (fun c => c ∈ df.names)) i)))

/-- `score_data(df, model, feature_cols, ...)`: copy the frame and assign
the `P_1` column (`df_scored['P_1'] = prob_default`). -/
def score_data (df : DFrame) (model : List ℚ → ℚ) (featureCols : List String) :
    DFrame :=
  df.setCol "P_1" (scoreCol df model featureCols)

/-- The decile column
`pd.qcut(df_deciles[prob_col], q=10, labels=False, duplicates='drop')`,
codes as rational values, NaN as `none`. -/
def decileCol (c : Col) : Col :=
  (qcutCodes c 10).map (fun o => o.map (fun (n : ℕ) => (n : ℚ)))

/-- `create_deciles(df_scored, prob_col)`: copy and assign the `decile`
column; `none` models the KeyError raised when the probability column is
missing. -/
def create_deciles (df : DFrame) (probCol : String) : Option DFrame :=
  (df.get? probCol).map (fun c => df.setCol "decile" (decileCol c))

/-- Concrete scored frame whose only column is a `P_1` column that already
exists before scoring. -/
def dfP : DFrame := ⟨[("P_1", [some 0])]⟩

/-- Concrete one-column frame to score. -/
def dfA : DFrame := ⟨[("a", [some 1])]⟩

/-- Concrete scored frame for the decile witness. -/
def dfS : DFrame := ⟨[("P_1", [some 1, some 2, some 3])]⟩

/-- `create_deciles dfS "P_1"` output. -/
def dfSOut : DFrame :=
  ⟨[("P_1", [some 1, some 2, some 3]), ("decile", [some 0, some 4, some 9])]⟩

/-! ### Correlation filter (collinear_functions.py) -/

/-- A correlation matrix as consumed by `find_high_correlation_pairs`:
column names plus the matrix entries by position (`corr_matrix.iloc[i, j]`).
`calculate_correlation_matrix` (the pandas Pearson computation producing
it) is the float input this abstracts over. -/
structure CorrMatrix where
  cols : List String
  entry : ℕ → ℕ → ℚ

/-- One row of the high-correlation pair table (`var1`, `var2`,
`corr_value`). -/
structure CorrPair where
  var1 : String
  var2 : String
  corr : ℚ
deriving DecidableEq

/-- `find_high_correlation_pairs(corr_matrix, threshold)`: all pairs
`i < j` with `corr_value >= threshold`, in the source's loop order. -/
def find_high_correlation_pairs (m : CorrMatrix) (threshold : ℚ) :
    List CorrPair :=
  ((List.range m.cols.length).map (fun i =>
    ((List.range m.cols.length).filter (fun j => i < j)).filterMap (fun j =>
      if threshold ≤ m.entry i j then
        some ⟨m.cols.getD i "", m.cols.getD j "", m.entry i j⟩
      else none))).join

/-- One iteration of the `identify_vars_to_drop_correlation` loop: append
`var2` (if not yet present) when `corr > corr_threshold_high`, or when
`corr > corr_threshold_medium` and `var2`'s IV — `iv_dict.get(var2, 0)`,
`0` when no `iv_summary` was given — is below `iv_threshold`. -/
def identifyCorrStep (ivs : Option (List (String × ℚ))) (hi med ivThr : ℚ)
    (acc : List String) (p : CorrPair) : List String :=
  if hi < p.corr then
    (if p.var2 ∈ acc then acc else acc ++ [p.var2])
  else if med < p.corr then
    (if (((ivs.getD []).lookup p.var2).getD 0 < ivThr) then
      (if p.var2 ∈ acc then acc else acc ++ [p.var2])
    else acc)
  else acc

/-- `identify_vars_to_drop_correlation(high_corr_pairs, iv_summary,
corr_threshold_high, corr_threshold_medium, iv_threshold)`. -/
def identify_vars_to_drop_correlation (pairs : List CorrPair)
    (ivs : Option (List (String × ℚ))) (hi med ivThr : ℚ) : List String :=
  pairs.foldl (identifyCorrStep ivs hi med ivThr) []

/-- `apply_correlation_filter(df, vars_to_drop)`:
`df.drop(columns=vars_to_drop, errors='ignore')`. -/
def apply_correlation_filter (df : DFrame) (varsToDrop : List String) : DFrame :=
  ⟨df.cols.filter (fun c => c.1 ∉ varsToDrop)⟩

/-- Correlation matrix on columns A, B, C with corr(A,B) = 0.96,
corr(B,C) = 0.99 and corr(A,C) = 0.5. -/
def corrM3 : CorrMatrix :=
  ⟨["A", "B", "C"], fun i j =>
    if (i = 0 ∧ j = 1) ∨ (i = 1 ∧ j = 0) then 96/100
    else if (i = 1 ∧ j = 2) ∨ (i = 2 ∧ j = 1) then 99/100
    else if i = j then 1 else 1/2⟩

/-- Three-column frame matching `corrM3`. -/
def dfABC : DFrame :=
  ⟨[("A", [some 1]), ("B", [some 2]), ("C", [some 3])]⟩

/-! ### `step7_duplicate_columns` / `step8_drop_duplicates`
(var_meta_functions.py) -/

/-- The columns excluded from duplicate detection: `dpd_m1` .. `dpd_m12`. -/
def dpdExclude : List String :=
  (List.range 12).map (fun (i : ℕ) => "dpd_m" ++ toString (i + 1))

/-- The digest of a column: `str(val)` of every non-missing value,
concatenated; the `md5` hexdigest the source applies on top is modelled by
the concatenated string itself (an injective stand-in). -/
def colDigest (vals : Col) : String :=
  String.join (vals.filterMap (fun o => o.map (fun q => toString q)))

/-- The `group_id` assignment loop: walk the digest-sorted rows, opening a
new group whenever the digest differs from the previous row's
(`current_group` starts at 0, `prev_digest` at None). -/
def assignGroups : List (String × String) → ℕ → Option String →
    List (ℕ × String)
  | [], _, _ => []
  | (name, dig) :: rest, cur, prev =>
    let g := if prev = some dig then cur else cur + 1
    (g, name) :: assignGroups rest g (some dig)

/-- The sampling step of `step7_duplicate_columns`:
`df.sample(n=min(sample_size, len(df))) if sample_size and len(df) >
sample_size else df.copy()`.  `sampleIdx` stands for the row indices drawn
by the **unseeded** `df.sample` from the global RNG. -/
def step7Sample (df : DFrame) (sampleSize : ℕ) (sampleIdx : List ℕ) :
    DFrame :=
  if sampleSize ≠ 0 ∧ sampleSize < df.numRows then
    ⟨df.cols.map (fun c => (c.1, sampleIdx.map (fun i => c.2.getD i none)))⟩
  else df

/-- Digest-sorted, group-id-assigned rows of `step7_duplicate_columns`:
exclude the dpd_m columns, hash each remaining column (the transpose + row
hash of the source), sort by digest (the `String` order is char-list
order), assign group ids. -/
def step7Grouped (df : DFrame) (sampleSize : ℕ) (sampleIdx : List ℕ) :
    List (ℕ × String) :=
  assignGroups
    ((((step7Sample df sampleSize sampleIdx).cols.filter
        (fun c => c.1 ∉ dpdExclude)).map
      (fun c => (c.1, colDigest c.2))).insertionSort
        (fun a b => a.2.data ≤ b.2.data)) 0 none

/-- `step7_duplicate_columns(df, sample_size)`: keep the
`(group_id, column_name)` rows of the groups of size `> 1`. -/
def step7_duplicate_columns (df : DFrame) (sampleSize : ℕ)
    (sampleIdx : List ℕ) : List (ℕ × String) :=
  (step7Grouped df sampleSize sampleIdx).filter
    (fun r => 1 < ((step7Grouped df sampleSize sampleIdx).filter
      (fun r2 => r2.1 = r.1)).length)

/-- `step7_get_duplicate_list(df_duplicates)`: for every group id, all of
the group's column names except the first.  (`unique()` keeps first
occurrences where `dedup` keeps last ones; only the order of the returned
names differs, not their membership.) -/
def step7_get_duplicate_list (tbl : List (ℕ × String)) : List String :=
  ((tbl.map Prod.fst).dedup).bind (fun g =>
    ((tbl.filter (fun r => r.1 = g)).map Prod.snd).tail)

/-- `step8_drop_duplicates(df, columns_to_drop)`: restrict to the columns
that exist, return a copy when none does, else drop them. -/
def step8_drop_duplicates (df : DFrame) (columnsToDrop : List String) :
    DFrame :=
  if (columnsToDrop.filter (fun c => c ∈ df.names)).isEmpty then df
  else ⟨df.cols.filter
    (fun c => c.1 ∉ columnsToDrop.filter (fun c2 => c2 ∈ df.names))⟩

/-- Two-row frame whose columns agree on row 0 and differ on row 1. -/
def dfDup : DFrame := ⟨[("A", [some 1, some 2]), ("B", [some 1, some 3])]⟩

/-! ### VIF filter (collinear_functions.py)

`calculate_vif` regresses each mean-filled feature on the constant and all
other features via statsmodels OLS and reports `VIF = 1 / (1 - R²)`.  With
`R² = 1 - ssr / centered_tss` this is `tss / ssr`; the pinv-based OLS fit
attains the least-squares optimum, so `ssr` is modelled as the infimum of
attainable residual sums of squares, and the VIF is valued in `ENNReal` so
that a perfect fit (`ssr = 0`) yields the IEEE `inf` the float code
produces. -/

/-- `X.fillna(X.mean())`: missing entries replaced by the mean of the
column's non-missing values.  (pandas leaves an all-missing column as NaN;
the junk mean `0` of that case is unreachable in the claims.) -/
def fillnaMean (c : Col) : List ℚ :=
  c.map (fun o => o.getD (listMean (c.filterMap id)))

/-- Python's `str.upper()` on ASCII column names: character-wise upper
case.  (`String.toUpper` itself is not used because its byte-position
recursion does not reduce in the kernel.) -/
def strUpper (s : String) : String := ⟨s.data.map Char.toUpper⟩

/-- The feature columns of `calculate_vif`: numeric columns other than the
target, minus the case-insensitively excluded ones; an empty `exclude`
list (the falsy `None`/`[]` of the source) excludes nothing. -/
def vifFeatureCols (df : DFrame) (target : String) (exclude : List String) :
    List (String × Col) :=
  (df.cols.filter (fun c => c.1 ≠ target)).filter
    (fun c => exclude.isEmpty || strUpper c.1 ∉ exclude.map strUpper)

/-- The fitted value at row `t` for intercept `c` and coefficients `βs`:
`c + Σ_m β_m * X_m[t]`. -/
noncomputable def linComb (c : ℝ) (βs : List ℝ) (xs : List (List ℝ))
    (t : ℕ) : ℝ :=
  c + ∑ m ∈ Finset.range xs.length, βs.getD m 0 * (xs.getD m []).getD t 0

/-- Residual sum of squares of one regression fit. -/
noncomputable def sseVal (y : List ℝ) (xs : List (List ℝ)) (c : ℝ)
    (βs : List ℝ) : ℝ :=
  ∑ t ∈ Finset.range y.length, (y.getD t 0 - linComb c βs xs t) ^ 2

/-- All residual sums of squares attainable by some fit. -/
def sseSet (y : List ℝ) (xs : List (List ℝ)) : Set ℝ :=
  {s | ∃ c βs, s = sseVal y xs c βs}

/-- The OLS `ssr`: the least attainable residual sum of squares. -/
noncomputable def sseMin (y : List ℝ) (xs : List (List ℝ)) : ℝ :=
  sInf (sseSet y xs)

/-- Mean of a real column. -/
noncomputable def rMean (y : List ℝ) : ℝ := y.sum / y.length

/-- statsmodels `centered_tss`. -/
noncomputable def sstVal (y : List ℝ) : ℝ :=
  ∑ t ∈ Finset.range y.length, (y.getD t 0 - rMean y) ^ 2

/-- `variance_inflation_factor`: `VIF = tss / ssr ∈ [0, ∞]`. -/
noncomputable def vifOf (y : List ℝ) (xs : List (List ℝ)) : ENNReal :=
  ENNReal.ofReal (sstVal y) / ENNReal.ofReal (sseMin y xs)

/-- Cast a rational column to the reals. -/
noncomputable def colR (c : List ℚ) : List ℝ := c.map (fun (q : ℚ) => (q : ℝ))

/-- `calculate_vif(df, target_col, exclude_vars)`: the variable/VIF table;
entry `i` regresses mean-filled feature `i` on the constant and all other
mean-filled features.  (The `except` branch returning an empty table
models a statsmodels failure, which the idealised real-valued fit never
raises.) -/
noncomputable def calculate_vif (df : DFrame) (target : String)
    (exclude : List String) : List (String × ENNReal) :=
  (List.range (vifFeatureCols df target exclude).length).map (fun i =>
    (((vifFeatureCols df target exclude).getD i ("", [])).1,
      vifOf
        (colR (fillnaMean ((vifFeatureCols df target exclude).getD i ("", [])).2))
        (((vifFeatureCols df target exclude).eraseIdx i).map
          (fun c => colR (fillnaMean c.2)))))

/-- The default key-variable exclusion list of `identify_vars_to_drop_vif`
(`exclude_vars is None`). -/
def defaultVifExclude : List String :=
  ["bureau_score", "salary_credit_3m", "emi_to_income_ratio",
   "dpd_max", "dpd_count_30_plus", "utilization_score",
   "balance_utilization_score", "age", "employment_type",
   "education_level", "marital_status", "risk_score"]

open Classical in
/-- `identify_vars_to_drop_vif(vif_df, vif_threshold, exclude_vars)`:
variables whose VIF exceeds the threshold and that are not
(case-insensitively) excluded; `none` selects the default key-variable
list. -/
noncomputable def identify_vars_to_drop_vif (vifDf : List (String × ENNReal))
    (vifThreshold : ENNReal) (exclude : Option (List String)) : List String :=
  (vifDf.filter (fun r =>
    decide (vifThreshold < r.2) &&
    decide (strUpper r.1 ∉
      (exclude.getD defaultVifExclude).map strUpper))).map Prod.fst

/-- `apply_vif_filter(df, vars_to_drop)`:
`df.drop(columns=vars_to_drop, errors='ignore')`. -/
def apply_vif_filter (df : DFrame) (varsToDrop : List String) : DFrame :=
  ⟨df.cols.filter (fun c => c.1 ∉ varsToDrop)⟩

/-- Frame with a perfectly collinear feature pair `v = 2 * u`. -/
def dfVif : DFrame :=
  ⟨[("u", [some 1, some 2, some 3]), ("v", [some 2, some 4, some 6]),
    ("default_flag", [some 0, some 1, some 0])]⟩

/-- One-column frame named after an excluded key variable. -/
def dfRisk : DFrame := ⟨[("risk_score", [some 1])]⟩

/-- One-column frame for the VIF witness. -/
def dfX : DFrame := ⟨[("x", [some 1])]⟩

/-! ## Theorems -/

lemma binary_sum_bounds (l : List ℚ) (h : ∀ x ∈ l, x = 0 ∨ x = 1) :
    0 ≤ l.sum ∧ l.sum ≤ (l.length : ℚ) := by
  induction l with
  | nil => simp
  | cons a t ih =>
    have ht := ih (fun x hx => h x (List.mem_cons_of_mem a hx))
    rcases h a (List.mem_cons_self a t) with h0 | h1 <;>
      · subst_eqs
        simp only [List.sum_cons, List.length_cons]
        push_cast
        constructor <;> linarith [ht.1, ht.2]

lemma step4Rows_binary (df : DFrame) (var target : String)
    (h : BinaryCol ((df.get? target).getD [])) :
    BinaryRows (step4Rows df var target) := by
  intro q hq
  unfold step4Rows at hq
  cases hv : df.get? var with
  | none => rw [hv] at hq; simp at hq
  | some vc =>
    cases ht : df.get? target with
    | none => rw [hv, ht] at hq; simp at hq
    | some tc =>
      rw [hv, ht] at hq
      simp only [List.mem_filterMap] at hq
      obtain ⟨p, hp, he⟩ := hq
      have h2 : p.2 ∈ tc := (List.of_mem_zip hp).2
      cases p1 : p.1 with
      | none => rw [p1] at he; simp at he
      | some v =>
        rw [p1] at he
        simp only [Option.map_some', Option.some.injEq] at he
        have hq2 : q.2 = p.2 := by rw [← he]
        rw [hq2]
        have := h p.2 (by rw [ht]; exact h2)
        exact this

lemma step4Stats_bounds (rows : List (ℚ × Option ℚ)) (n : ℕ)
    (hb : BinaryRows rows) :
    ∀ r ∈ step4Stats rows n, 0 ≤ r.bad ∧ 0 ≤ r.good := by
  intro r hr
  unfold step4Stats at hr
  simp only [List.mem_filter, List.mem_map] at hr
  obtain ⟨⟨b, hbmem, hrfl⟩, _⟩ := hr
  subst hrfl
  dsimp only
  set pairs := ((qcutCodes (rows.map (fun r => some r.1)) n).map
      (fun c => (c.map Int.ofNat).getD (-1))).zip (rows.map (fun r => r.2)) with hpairs
  set tgts := (pairs.filter (fun p => p.1 = b)).filterMap (fun p => p.2) with htgts
  have hbinary : ∀ x ∈ tgts, x = (0:ℚ) ∨ x = 1 := by
    intro x hx
    rw [htgts] at hx
    simp only [List.mem_filterMap] at hx
    obtain ⟨p, hpf, hpx⟩ := hx
    have hpp : p ∈ pairs := List.mem_of_mem_filter hpf
    have h2 : p.2 ∈ rows.map (fun r => r.2) := (List.of_mem_zip hpp).2
    simp only [List.mem_map] at h2
    obtain ⟨row, hrow, hrow2⟩ := h2
    rcases hb row hrow with hn | h0 | h1
    · rw [← hrow2, hn] at hpx; simp at hpx
    · rw [← hrow2, h0] at hpx
      simp only [Option.some.injEq] at hpx; exact Or.inl hpx.symm
    · rw [← hrow2, h1] at hpx
      simp only [Option.some.injEq] at hpx; exact Or.inr hpx.symm
  have hs := binary_sum_bounds tgts hbinary
  refine ⟨hs.1, ?_⟩
  have := hs.2
  linarith

lemma totGoodOf_nonneg (stats : List CRow) (h : ∀ r ∈ stats, 0 ≤ r.good) :
    0 ≤ totGoodOf stats := by
  apply List.sum_nonneg
  intro x hx
  simp only [List.mem_map] at hx
  obtain ⟨r, hr, hrfl⟩ := hx
  exact hrfl ▸ h r hr

lemma totBadOf_nonneg (stats : List CRow) (h : ∀ r ∈ stats, 0 ≤ r.bad) :
    0 ≤ totBadOf stats := by
  apply List.sum_nonneg
  intro x hx
  simp only [List.mem_map] at hx
  obtain ⟨r, hr, hrfl⟩ := hx
  exact hrfl ▸ h r hr

lemma mkFull_pct_pos (tg tb : ℚ) (stats : List CRow)
    (htg : 0 < tg) (htb : 0 < tb)
    (h : ∀ r ∈ stats, 0 ≤ r.bad ∧ 0 ≤ r.good) :
    ∀ r ∈ mkFull tg tb stats, 0 < r.pct_good ∧ 0 < r.pct_bad := by
  intro r hr
  unfold mkFull at hr
  simp only [List.mem_map] at hr
  obtain ⟨s, hs, hrfl⟩ := hr
  subst hrfl
  constructor
  · dsimp only
    split
    · norm_num
    · next hne =>
        exact lt_of_le_of_ne (div_nonneg (h s hs).2 htg.le) (Ne.symm hne)
  · dsimp only
    split
    · norm_num
    · next hne =>
        exact lt_of_le_of_ne (div_nonneg (h s hs).1 htb.le) (Ne.symm hne)

lemma sub_mul_log_nonneg {x y : ℝ} (hx : 0 < x) (hy : 0 < y) :
    0 ≤ (x - y) * Real.log (x / y) := by
  rcases le_total y x with h | h
  · apply mul_nonneg (by linarith)
    apply Real.log_nonneg
    rw [le_div_iff₀ hy]; linarith
  · have h1 : x - y ≤ 0 := by linarith
    have h2 : Real.log (x / y) ≤ 0 :=
      Real.log_nonpos (by positivity) (by rw [div_le_one hy]; linarith)
    nlinarith

lemma ivOf_nonneg (rows : List QRow)
    (h : ∀ r ∈ rows, 0 < r.pct_good ∧ 0 < r.pct_bad) : 0 ≤ ivOf rows := by
  apply List.sum_nonneg
  intro x hx
  simp only [List.mem_map] at hx
  obtain ⟨r, hr, hrfl⟩ := hx
  subst hrfl
  unfold rowIvComponent rowWoe
  exact sub_mul_log_nonneg (by exact_mod_cast (h r hr).1)
    (by exact_mod_cast (h r hr).2)

lemma mkFull_sum_pct_good (tb : ℚ) (stats : List CRow)
    (htg : totGoodOf stats ≠ 0) (hne : ∀ r ∈ stats, r.good ≠ 0) :
    ((mkFull (totGoodOf stats) tb stats).map QRow.pct_good).sum = 1 := by
  have heq : (mkFull (totGoodOf stats) tb stats).map QRow.pct_good
      = stats.map (fun s => s.good * (totGoodOf stats)⁻¹) := by
    unfold mkFull
    rw [List.map_map]
    apply List.map_congr_left
    intro s hs
    dsimp only [Function.comp]
    rw [if_neg (div_ne_zero (hne s hs) htg), div_eq_mul_inv]
  rw [heq, List.sum_map_mul_right]
  exact mul_inv_cancel₀ htg

lemma mkFull_sum_pct_bad (tg : ℚ) (stats : List CRow)
    (htb : totBadOf stats ≠ 0) (hne : ∀ r ∈ stats, r.bad ≠ 0) :
    ((mkFull tg (totBadOf stats) stats).map QRow.pct_bad).sum = 1 := by
  have heq : (mkFull tg (totBadOf stats) stats).map QRow.pct_bad
      = stats.map (fun s => s.bad * (totBadOf stats)⁻¹) := by
    unfold mkFull
    rw [List.map_map]
    apply List.map_congr_left
    intro s hs
    dsimp only [Function.comp]
    rw [if_neg (div_ne_zero (hne s hs) htb), div_eq_mul_inv]
  rw [heq, List.sum_map_mul_right]
  exact mul_inv_cancel₀ htb

/-- C1 (counterexample): on `dfWoe` the returned WoE table is non-empty with
positive total good and bad counts, yet its `pct_bad` column sums to
`10001/10000`, not `1` — the `replace(0, 0.0001)` step destroys the
normalisation whenever a bin has zero bads (or zero goods). -/
theorem claim1_counterexample :
    (step4_calculate_woe_iv_for_variable dfWoe "x" "y" 2).2 = WoeTable.full dfWoeRows ∧
    totGoodOf (step4Stats (step4Rows dfWoe "x" "y") 2) = 3 ∧
    totBadOf (step4Stats (step4Rows dfWoe "x" "y") 2) = 1 ∧
    (dfWoeRows.map QRow.pct_bad).sum = 10001/10000 := by
  refine ⟨by decide, by decide, by decide, by decide⟩

/-- C1 (amended): whenever `step4_calculate_woe_iv_for_variable` returns a
full WoE table (so both count totals are nonzero) and, additionally, every
bin has a nonzero good count and a nonzero bad count (so the
`replace(0, 0.0001)` substitution fires nowhere), the `pct_good` column
sums to exactly `1` and the `pct_bad` column sums to exactly `1`. -/
theorem claim1_pct_sums (df : DFrame) (var target : String) (nBins : ℕ)
    (rs : List QRow)
    (hfull : (step4_calculate_woe_iv_for_variable df var target nBins).2 =
      WoeTable.full rs)
    (hg : ∀ r ∈ rs, r.good ≠ 0) (hb : ∀ r ∈ rs, r.bad ≠ 0) :
    (rs.map QRow.pct_good).sum = 1 ∧ (rs.map QRow.pct_bad).sum = 1 := by
  unfold step4_calculate_woe_iv_for_variable at hfull
  split at hfull
  · simp at hfull
  split at hfull
  · simp at hfull
  split at hfull
  · simp at hfull
  split at hfull
  · simp at hfull
  next h4 =>
    simp only [WoeTable.full.injEq] at hfull
    push_neg at h4
    obtain ⟨htg, htb⟩ := h4
    subst hfull
    have hgs : ∀ s ∈ step4Stats (step4Rows df var target) nBins, s.good ≠ 0 := by
      intro s hs
      exact hg _ (List.mem_map_of_mem _ hs)
    have hbs : ∀ s ∈ step4Stats (step4Rows df var target) nBins, s.bad ≠ 0 := by
      intro s hs
      exact hb _ (List.mem_map_of_mem _ hs)
    exact ⟨mkFull_sum_pct_good _ _ htg hgs, mkFull_sum_pct_bad _ _ htb hbs⟩

/-- C1 (witness): on `dfWoeBal` every bin has a good and a bad, the full
table is returned, and both pct columns sum to `1`. -/
theorem claim1_witness :
    (dfWoeBalRows.map QRow.pct_good).sum = 1 ∧
    (dfWoeBalRows.map QRow.pct_bad).sum = 1 :=
  claim1_pct_sums dfWoeBal "x" "y" 2 dfWoeBalRows (by decide) (by decide)
    (by decide)

/-- C2: for every frame, variable, binary target column and bin count, the
IV value returned by `step4_calculate_woe_iv_for_variable` is non-negative:
after the zero replacement both pct columns are strictly positive, so every
`iv_component = (pct_good - pct_bad) * log(pct_good / pct_bad)` is a product
of two factors of equal sign. -/
theorem claim2_iv_nonneg (df : DFrame) (var target : String) (nBins : ℕ)
    (hbin : BinaryCol ((df.get? target).getD [])) :
    0 ≤ (step4_calculate_woe_iv_for_variable df var target nBins).1 := by
  unfold step4_calculate_woe_iv_for_variable
  split
  · simp
  split
  · simp
  split
  · simp
  split
  · simp
  next h4 =>
    push_neg at h4
    obtain ⟨htg, htb⟩ := h4
    show (0:ℝ) ≤ ivOf _
    have hbounds := step4Stats_bounds (step4Rows df var target) nBins
      (step4Rows_binary df var target hbin)
    apply ivOf_nonneg
    apply mkFull_pct_pos
    · exact lt_of_le_of_ne (totGoodOf_nonneg _ (fun r hr => (hbounds r hr).2))
        (Ne.symm htg)
    · exact lt_of_le_of_ne (totBadOf_nonneg _ (fun r hr => (hbounds r hr).1))
        (Ne.symm htb)
    · exact hbounds

/-- C2 (witness): the IV computed on `dfWoe`, whose target column is binary,
is non-negative. -/
theorem claim2_witness :
    0 ≤ (step4_calculate_woe_iv_for_variable dfWoe "x" "y" 2).1 :=
  claim2_iv_nonneg dfWoe "x" "y" 2 (by decide)

/-- C7 (counterexample): called with a variable name absent from the frame,
`step4_calculate_woe_iv_for_variable` returns the substitute value
`(0.0, pd.DataFrame())` instead of propagating a missing-column exception. -/
theorem claim7_counterexample :
    step4_calculate_woe_iv_for_variable dfWoe "z" "y" 10 = (0, WoeTable.empty) := by
  rw [step4_calculate_woe_iv_for_variable, if_pos]
  decide

/-- C7 (amended): `step4_calculate_woe_iv_for_variable` recovers from a
missing variable or target column by returning the substitute value
`(0.0, pd.DataFrame())` rather than propagating an exception (and
`calculate_vif` likewise catches failures of the library VIF computation,
returning an empty table). -/
theorem claim7_substitute_on_missing (df : DFrame) (var target : String)
    (nBins : ℕ) (h : var ∉ df.names ∨ target ∉ df.names) :
    step4_calculate_woe_iv_for_variable df var target nBins =
      (0, WoeTable.empty) := by
  rw [step4_calculate_woe_iv_for_variable, if_pos]
  rw [not_and_or]
  exact h

/-- C7 (witness): the substitute value at a concrete missing variable. -/
theorem claim7_witness :
    step4_calculate_woe_iv_for_variable dfWoe "z" "y" 10 = (0, WoeTable.empty) :=
  claim7_substitute_on_missing dfWoe "z" "y" 10 (Or.inl (by decide))

/-- C5: a numeric column with at least one non-missing value whose minimum
equals its maximum is always in the Stage-4 drop list and absent from the
returned frame. -/
theorem claim5_constant_dropped (df : DFrame) (name : String) (vals : Col)
    (hmem : (name, vals) ∈ df.cols)
    (hne : ¬ (vals.filterMap id).isEmpty)
    (hconst : colMin (vals.filterMap id) = colMax (vals.filterMap id)) :
    name ∈ stage4_columns_to_drop df ∧
    name ∉ (stage4_near_zero_variance_filtering df).names := by
  have hdrop : name ∈ stage4_columns_to_drop df := by
    unfold stage4_columns_to_drop
    apply List.mem_filterMap.2
    refine ⟨(name, vals), hmem, ?_⟩
    dsimp only
    rw [if_neg hne, if_pos]
    rw [Bool.or_eq_true]
    exact Or.inr (decide_eq_true hconst)
  refine ⟨hdrop, ?_⟩
  intro habs
  unfold DFrame.names stage4_near_zero_variance_filtering at habs
  simp only [List.mem_map] at habs
  obtain ⟨c, hc, hcn⟩ := habs
  have hpred := (List.mem_filter.1 hc).2
  rw [decide_eq_true_eq] at hpred
  rw [hcn] at hpred
  exact hpred hdrop

/-- C5 (witness): the constant column of `dfVar` is dropped. -/
theorem claim5_witness :
    "c" ∈ stage4_columns_to_drop dfVar ∧
    "c" ∉ (stage4_near_zero_variance_filtering dfVar).names :=
  claim5_constant_dropped dfVar "c" [some 5, none, some 5] (by decide)
    (by decide) (by decide)

lemma qcutEdges_length (xs : List ℚ) (q : ℕ) :
    (qcutEdges xs q).length = q + 1 := by
  unfold qcutEdges
  rw [List.length_map, List.length_range]

lemma qcutBins_length_le (vals : List (Option ℚ)) (q : ℕ) :
    (qcutBins vals q).length ≤ q + 1 := by
  unfold qcutBins dropDupEdges
  split
  · exact (qcutEdges_length _ q).le
  · calc ((qcutEdges _ q).dedup).length
        ≤ (qcutEdges _ q).length := (List.dedup_sublist _).length_le
      _ = q + 1 := qcutEdges_length _ q

lemma qcutIdx_le (bins : List ℚ) (v : ℚ) : qcutIdx bins v ≤ bins.length := by
  unfold qcutIdx
  split
  · next hh =>
      cases bins with
      | nil => simp at hh
      | cons b t => simp
  · unfold searchsortedLeft
    exact (List.takeWhile_sublist _).length_le

lemma qcutCode_bound (bins : List ℚ) (v : ℚ) (n : ℕ)
    (h : qcutCode bins v = some n) : 2 ≤ bins.length ∧ n + 2 ≤ bins.length := by
  unfold qcutCode at h
  have hlen := qcutIdx_le bins v
  split at h
  · simp at h
  · next hmask =>
      push_neg at hmask
      simp only [Option.some.injEq] at h
      omega

lemma qcutCodes_bound (vals : List (Option ℚ)) (q : ℕ) :
    ∀ o ∈ qcutCodes vals q, ∀ n, o = some n → n < q := by
  intro o ho n hn
  unfold qcutCodes at ho
  simp only [List.mem_map] at ho
  obtain ⟨ov, _, hoe⟩ := ho
  subst hn
  cases ov with
  | none => simp at hoe
  | some v =>
    simp only [Option.some_bind] at hoe
    have hb := qcutCode_bound _ v n hoe
    have hq := qcutBins_length_le vals q
    omega

lemma qcutCodes_length (vals : List (Option ℚ)) (q : ℕ) :
    (qcutCodes vals q).length = vals.length := by
  unfold qcutCodes
  rw [List.length_map]

lemma decileCol_length (c : Col) : (decileCol c).length = c.length := by
  unfold decileCol
  rw [List.length_map, qcutCodes_length]

lemma decileCol_distinct_le (c : Col) :
    (((decileCol c).filterMap id).dedup).length ≤ 10 := by
  have hsub : ((decileCol c).filterMap id).dedup ⊆
      (List.range 10).map (fun (n : ℕ) => (n : ℚ)) := by
    intro x hx
    have hx2 := List.mem_dedup.1 hx
    simp only [List.mem_filterMap, id_eq] at hx2
    obtain ⟨o, ho, hox⟩ := hx2
    unfold decileCol at ho
    simp only [List.mem_map] at ho
    obtain ⟨o2, ho2, ho2e⟩ := ho
    subst ho2e
    cases o2 with
    | none => simp at hox
    | some m =>
      simp only [Option.map_some', Option.some.injEq] at hox
      have := qcutCodes_bound c 10 _ ho2 m rfl
      subst hox
      simp only [List.mem_map, List.mem_range]
      exact ⟨m, this, rfl⟩
  have hnd : (((decileCol c).filterMap id).dedup).Nodup := List.nodup_dedup _
  have := (hnd.subperm hsub).length_le
  simpa using this

lemma get?_mem_cols (df : DFrame) (n : String) (c : Col)
    (h : df.get? n = some c) : ∃ m, (m, c) ∈ df.cols := by
  unfold DFrame.get? at h
  cases hf : df.cols.find? (fun p => p.1 = n) with
  | none => rw [hf] at h; simp at h
  | some p =>
    obtain ⟨a, b⟩ := p
    rw [hf] at h
    simp only [Option.map_some', Option.some.injEq] at h
    subst h
    exact ⟨a, List.mem_of_find?_eq_some hf⟩

lemma setCol_numRows (df : DFrame) (n : String) (v : Col)
    (hrect : df.Rect) (hv : v.length = df.numRows) :
    (df.setCol n v).numRows = df.numRows ∧
    ∀ c ∈ (df.setCol n v).cols, c.2.length = df.numRows := by
  unfold DFrame.setCol
  split
  · -- replace branch
    obtain ⟨cols⟩ := df
    have hall : ∀ c ∈ (cols.map (fun c => if c.1 = n then (n, v) else c)),
        c.2.length = DFrame.numRows ⟨cols⟩ := by
      intro c hc
      simp only [List.mem_map] at hc
      obtain ⟨c0, hc0, hce⟩ := hc
      subst hce
      split
      · exact hv
      · exact hrect c0 hc0
    refine ⟨?_, hall⟩
    cases cols with
    | nil => rfl
    | cons c0 t =>
      have := hall ((if c0.1 = n then (n, v) else c0))
        (by simp only [List.map_cons]; exact List.mem_cons_self _ _)
      exact this
  · -- append branch
    obtain ⟨cols⟩ := df
    have hall : ∀ c ∈ cols ++ [(n, v)], c.2.length = DFrame.numRows ⟨cols⟩ := by
      intro c hc
      rcases List.mem_append.1 hc with hc | hc
      · exact hrect c hc
      · simp only [List.mem_singleton] at hc
        subst hc
        exact hv
    refine ⟨?_, hall⟩
    cases cols with
    | nil => simpa using hv
    | cons c0 t => rfl

lemma find?_map_set (l : List (String × Col)) (n : String) (v : Col)
    (hn : n ∈ l.map Prod.fst) :
    (l.map (fun c => if c.1 = n then (n, v) else c)).find?
      (fun c => c.1 = n) = some (n, v) := by
  induction l with
  | nil => simp at hn
  | cons c t ih =>
    by_cases hc : c.1 = n
    · simp only [List.map_cons, if_pos hc]
      rw [List.find?_cons_of_pos]
      simp
    · simp only [List.map_cons, if_neg hc]
      rw [List.find?_cons_of_neg]
      · apply ih
        simp only [List.map_cons, List.mem_cons] at hn
        rcases hn with hn | hn
        · exact absurd hn.symm hc
        · exact hn
      · simp [hc]

lemma setCol_get? (df : DFrame) (n : String) (v : Col) :
    (df.setCol n v).get? n = some v := by
  unfold DFrame.setCol DFrame.get?
  split
  · next hn =>
      rw [find?_map_set df.cols n v hn]
      rfl
  · next hn =>
      rw [List.find?_append]
      have h1 : df.cols.find? (fun c => c.1 = n) = none := by
        rw [List.find?_eq_none]
        intro c hc hcn
        rw [decide_eq_true_eq] at hcn
        exact hn (hcn ▸ List.mem_map_of_mem Prod.fst hc)
      rw [h1]
      simp

/-- C6: for every rectangular scored frame having the probability column,
`create_deciles` returns a frame with exactly as many rows as its input
(every column keeps the input row count), and the added `decile` column
takes at most 10 distinct non-null values. -/
theorem claim6_deciles (df : DFrame) (probCol : String) (out : DFrame)
    (hrect : df.Rect)
    (hout : create_deciles df probCol = some out) :
    out.numRows = df.numRows ∧
    (∀ c ∈ out.cols, c.2.length = df.numRows) ∧
    ∀ dc, out.get? "decile" = some dc → ((dc.filterMap id).dedup).length ≤ 10 := by
  unfold create_deciles at hout
  cases hp : df.get? probCol with
  | none => rw [hp] at hout; simp at hout
  | some pc =>
    rw [hp] at hout
    simp only [Option.map_some', Option.some.injEq] at hout
    subst hout
    obtain ⟨m, hm⟩ := get?_mem_cols df probCol pc hp
    have hpc_len : pc.length = df.numRows := hrect (m, pc) hm
    have hlen : (decileCol pc).length = df.numRows := by
      rw [decileCol_length]; exact hpc_len
    obtain ⟨h1, h2⟩ := setCol_numRows df "decile" (decileCol pc) hrect hlen
    refine ⟨h1, h2, ?_⟩
    intro dc hdc
    rw [setCol_get?] at hdc
    simp only [Option.some.injEq] at hdc
    subst hdc
    exact decileCol_distinct_le pc

/-- C6 (witness): deciles on the concrete scored frame `dfS`. -/
theorem claim6_witness :
    dfSOut.numRows = dfS.numRows ∧
    (∀ c ∈ dfSOut.cols, c.2.length = dfS.numRows) ∧
    ∀ dc, dfSOut.get? "decile" = some dc →
      ((dc.filterMap id).dedup).length ≤ 10 :=
  claim6_deciles dfS "P_1" dfSOut (by decide) (by decide)

lemma setCol_not_mem (df : DFrame) (n : String) (v : Col) (h : n ∉ df.names) :
    df.setCol n v = ⟨df.cols ++ [(n, v)]⟩ := by
  unfold DFrame.setCol
  rw [if_neg h]

lemma scoreCol_length (df : DFrame) (model : List ℚ → ℚ) (fc : List String) :
    (scoreCol df model fc).length = df.numRows := by
  unfold scoreCol
  rw [List.length_map, List.length_range]

lemma numRows_mk_append (cols : List (String × Col)) (n : String) (v : Col)
    (hv : v.length = (DFrame.mk cols).numRows) :
    (DFrame.mk (cols ++ [(n, v)])).numRows = (DFrame.mk cols).numRows := by
  cases cols with
  | nil => simpa [DFrame.numRows] using hv
  | cons c t => rfl

/-- C9 (counterexample): scoring a frame that already has a `P_1` column
does not add a column, and overwrites the pre-existing `P_1` values — the
claim's frame contract fails on such inputs. -/
theorem claim9_counterexample :
    (score_data dfP (fun _ => 1/2) []).names = dfP.names ∧
    (score_data dfP (fun _ => 1/2) []).get? "P_1" = some [some (1/2)] ∧
    dfP.get? "P_1" = some [some 0] :=
  ⟨by decide, by decide, by decide⟩

/-- C9 (amended): provided the documented output column is not already
present, each scoring-stage function only appends its output column:
`score_data` returns the input columns plus exactly `P_1` and
`create_deciles` the input columns plus exactly `decile`, with the values
of every pre-existing column and the row count unchanged. -/
theorem claim9_append_only :
    (∀ (df : DFrame) (model : List ℚ → ℚ) (fc : List String),
      "P_1" ∉ df.names →
      score_data df model fc = ⟨df.cols ++ [("P_1", scoreCol df model fc)]⟩ ∧
      (score_data df model fc).numRows = df.numRows) ∧
    (∀ (df : DFrame) (probCol : String) (c : Col),
      "decile" ∉ df.names → df.get? probCol = some c → df.Rect →
      create_deciles df probCol =
        some ⟨df.cols ++ [("decile", decileCol c)]⟩ ∧
      (DFrame.mk (df.cols ++ [("decile", decileCol c)])).numRows = df.numRows) := by
  constructor
  · intro df model fc h
    have he : score_data df model fc = ⟨df.cols ++ [("P_1", scoreCol df model fc)]⟩ :=
      setCol_not_mem df _ _ h
    refine ⟨he, ?_⟩
    rw [he]
    exact numRows_mk_append df.cols _ _ (scoreCol_length df model fc)
  · intro df probCol c h hc hrect
    have hlen : (decileCol c).length = df.numRows := by
      rw [decileCol_length]
      obtain ⟨m, hm⟩ := get?_mem_cols df probCol c hc
      exact hrect (m, c) hm
    constructor
    · unfold create_deciles
      rw [hc]
      simp only [Option.map_some', Option.some.injEq]
      exact setCol_not_mem df _ _ h
    · exact numRows_mk_append df.cols _ _ hlen

/-- C9 (witness): the append-only contract at concrete frames. -/
theorem claim9_witness :
    (score_data dfA (fun _ => 3/4) ["a"] =
        ⟨dfA.cols ++ [("P_1", scoreCol dfA (fun _ => 3/4) ["a"])]⟩ ∧
      (score_data dfA (fun _ => 3/4) ["a"]).numRows = dfA.numRows) ∧
    (create_deciles dfS "P_1" =
        some ⟨dfS.cols ++ [("decile", decileCol [some 1, some 2, some 3])]⟩ ∧
      (DFrame.mk (dfS.cols ++
        [("decile", decileCol [some 1, some 2, some 3])])).numRows = dfS.numRows) :=
  ⟨claim9_append_only.1 dfA (fun _ => 3/4) ["a"] (by decide),
   claim9_append_only.2 dfS "P_1" [some 1, some 2, some 3] (by decide)
     (by decide) (by decide)⟩

lemma find_high_mem_char (m : CorrMatrix) (thr : ℚ) (p : CorrPair)
    (hp : p ∈ find_high_correlation_pairs m thr) :
    ∃ i j, i < j ∧ j < m.cols.length ∧ thr ≤ m.entry i j ∧
      p = ⟨m.cols.getD i "", m.cols.getD j "", m.entry i j⟩ := by
  unfold find_high_correlation_pairs at hp
  simp only [List.mem_join, List.mem_map] at hp
  obtain ⟨l, ⟨i, _, hle⟩, hpl⟩ := hp
  subst hle
  simp only [List.mem_filterMap, List.mem_filter, List.mem_range,
    decide_eq_true_eq] at hpl
  obtain ⟨j, ⟨hjn, hij⟩, hj⟩ := hpl
  split at hj
  · next hth =>
      simp only [Option.some.injEq] at hj
      exact ⟨i, j, hij, hjn, hth, hj.symm⟩
  · simp at hj

lemma find_high_mem_intro (m : CorrMatrix) (thr : ℚ) (i j : ℕ)
    (hij : i < j) (hjn : j < m.cols.length) (hth : thr ≤ m.entry i j) :
    (⟨m.cols.getD i "", m.cols.getD j "", m.entry i j⟩ : CorrPair) ∈
      find_high_correlation_pairs m thr := by
  unfold find_high_correlation_pairs
  simp only [List.mem_join, List.mem_map]
  refine ⟨_, ⟨i, List.mem_range.2 (lt_trans hij hjn), rfl⟩, ?_⟩
  simp only [List.mem_filterMap, List.mem_filter, List.mem_range,
    decide_eq_true_eq]
  exact ⟨j, ⟨hjn, hij⟩, by rw [if_pos hth]⟩

lemma identifyCorrStep_low (ivs : Option (List (String × ℚ)))
    (acc : List String) (p : CorrPair) (h : p.corr ≤ 95/100) :
    identifyCorrStep ivs (98/100) (95/100) (2/100) acc p = acc := by
  unfold identifyCorrStep
  rw [if_neg (not_lt.2 (le_trans h (by norm_num))), if_neg (not_lt.2 h)]

lemma identifyCorrStep_mem (ivs : Option (List (String × ℚ))) (hi med ivThr : ℚ)
    (acc : List String) (p : CorrPair) (h : p.var2 ∈ acc) :
    identifyCorrStep ivs hi med ivThr acc p = acc := by
  unfold identifyCorrStep
  split
  · simp [h]
  · split
    · simp [h]
    · rfl

lemma identifyCorrStep_high (ivs : Option (List (String × ℚ))) (med ivThr : ℚ)
    (hi : ℚ) (p : CorrPair) (h : hi < p.corr) :
    identifyCorrStep ivs hi med ivThr [] p = [p.var2] := by
  unfold identifyCorrStep
  rw [if_pos h, if_neg (List.not_mem_nil _)]
  rfl

lemma identifyCorrStep_nil (ivs : Option (List (String × ℚ))) (hi med ivThr : ℚ)
    (p : CorrPair) :
    identifyCorrStep ivs hi med ivThr [] p = [] ∨
    identifyCorrStep ivs hi med ivThr [] p = [p.var2] := by
  unfold identifyCorrStep
  split
  · right; rw [if_neg (List.not_mem_nil _)]; rfl
  · split
    · split
      · right; rw [if_neg (List.not_mem_nil _)]; rfl
      · left; rfl
    · left; rfl

lemma identify_fold_props (ivs : Option (List (String × ℚ))) (v2 : String) :
    ∀ l : List CorrPair, (∀ p ∈ l, p.corr ≤ 95/100 ∨ p.var2 = v2) →
      (List.foldl (identifyCorrStep ivs (98/100) (95/100) (2/100)) [v2] l
          = [v2] ∧
        ((∃ p ∈ l, (98:ℚ)/100 < p.corr) →
          List.foldl (identifyCorrStep ivs (98/100) (95/100) (2/100)) [] l
            = [v2])) := by
  intro l
  induction l with
  | nil =>
    intro _
    refine ⟨rfl, ?_⟩
    rintro ⟨p, hp, _⟩
    simp at hp
  | cons p t ih =>
    intro hgood
    have hgt : ∀ q ∈ t, q.corr ≤ 95/100 ∨ q.var2 = v2 :=
      fun q hq => hgood q (List.mem_cons_of_mem _ hq)
    obtain ⟨ih1, ih2⟩ := ih hgt
    have hstep1 : identifyCorrStep ivs (98/100) (95/100) (2/100) [v2] p
        = [v2] := by
      rcases hgood p (List.mem_cons_self _ _) with hlow | hv
      · exact identifyCorrStep_low ivs _ p hlow
      · exact identifyCorrStep_mem ivs _ _ _ _ p
          (by rw [hv]; exact List.mem_singleton_self _)
    refine ⟨by rw [List.foldl_cons, hstep1]; exact ih1, ?_⟩
    rintro ⟨q, hq, hqc⟩
    rw [List.foldl_cons]
    rcases List.mem_cons.1 hq with rfl | hqt
    · have hv : q.var2 = v2 := by
        rcases hgood q (List.mem_cons_self _ _) with hlow | hv
        · linarith
        · exact hv
      rw [identifyCorrStep_high ivs _ _ _ q hqc, hv]
      exact ih1
    · rcases identifyCorrStep_nil ivs (98/100) (95/100) (2/100) p with h0 | h0
      · rw [h0]; exact ih2 ⟨q, hqt, hqc⟩
      · have hv : p.var2 = v2 := by
          rcases hgood p (List.mem_cons_self _ _) with hlow | hv
          · rw [identifyCorrStep_low ivs _ p hlow] at h0
            simp at h0
          · exact hv
        rw [h0, hv]
        exact ih1

/-- C3 (counterexample): in `corrM3`, B and C are exactly the two columns
with pairwise correlation above 0.98 (only the pair (B, C) at 0.99 exceeds
it), yet the filter pipeline removes BOTH of them — B is dropped by the
medium rule (corr(A,B) = 0.96 > 0.95 and the missing IV summary defaults
B's IV to 0 < 0.02) and C by the high rule — so neither column of the
high pair is kept. -/
theorem claim3_counterexample :
    ((find_high_correlation_pairs corrM3 (9/10)).filter
        (fun p => 98/100 < p.corr)).map (fun p => (p.var1, p.var2))
      = [("B", "C")] ∧
    identify_vars_to_drop_correlation (find_high_correlation_pairs corrM3 (9/10))
        none (98/100) (95/100) (2/100) = ["B", "C"] ∧
    (apply_correlation_filter dfABC
        (identify_vars_to_drop_correlation
          (find_high_correlation_pairs corrM3 (9/10))
          none (98/100) (95/100) (2/100))).names = ["A"] :=
  ⟨by decide, by decide, by decide⟩

/-- C3 (amended): when exactly one pair `(i, j)` of numeric columns has
correlation above 0.98 and every other pair is at or below the medium
threshold 0.95, the correlation filter removes exactly the second column
of the pair: the drop list is `[cols j]`, column `j` leaves the frame,
column `i` stays, and so does every other column. -/
theorem claim3_high_corr_filter (df : DFrame) (m : CorrMatrix)
    (hcols : m.cols = df.names) (hnd : df.names.Nodup)
    (i j : ℕ) (hij : i < j) (hjn : j < m.cols.length)
    (hhigh : 98/100 < m.entry i j)
    (hothers : ∀ a b, a < b → b < m.cols.length → ¬ (a = i ∧ b = j) →
      m.entry a b ≤ 95/100) :
    identify_vars_to_drop_correlation
        (find_high_correlation_pairs m (9/10)) none (98/100) (95/100) (2/100)
      = [m.cols.getD j ""] ∧
    m.cols.getD j "" ∉ (apply_correlation_filter df
        [m.cols.getD j ""]).names ∧
    m.cols.getD i "" ∈ (apply_correlation_filter df
        [m.cols.getD j ""]).names ∧
    ∀ c ∈ df.names, c ≠ m.cols.getD j "" →
      c ∈ (apply_correlation_filter df [m.cols.getD j ""]).names := by
  have hgood : ∀ p ∈ find_high_correlation_pairs m (9/10),
      p.corr ≤ 95/100 ∨ p.var2 = m.cols.getD j "" := by
    intro p hp
    obtain ⟨a, b, hab, hbn, _, hpe⟩ := find_high_mem_char m _ p hp
    by_cases hcase : a = i ∧ b = j
    · right
      rw [hpe, hcase.2]
    · left
      rw [hpe]
      exact hothers a b hab hbn hcase
  have hmem : (⟨m.cols.getD i "", m.cols.getD j "", m.entry i j⟩ : CorrPair) ∈
      find_high_correlation_pairs m (9/10) :=
    find_high_mem_intro m _ i j hij hjn (by linarith)
  have hdrop := (identify_fold_props none (m.cols.getD j "")
    (find_high_correlation_pairs m (9/10)) hgood).2
    ⟨_, hmem, by simpa using hhigh⟩
  refine ⟨hdrop, ?_, ?_, ?_⟩
  · intro habs
    unfold apply_correlation_filter DFrame.names at habs
    simp only [List.mem_map] at habs
    obtain ⟨c, hc, hcn⟩ := habs
    have hpred := (List.mem_filter.1 hc).2
    rw [decide_eq_true_eq, hcn] at hpred
    exact hpred (List.mem_singleton_self _)
  · have hi_lt : i < df.names.length := by rw [← hcols]; exact lt_trans hij hjn
    have hj_lt : j < df.names.length := by rw [← hcols]; exact hjn
    have hine : m.cols.getD i "" ≠ m.cols.getD j "" := by
      rw [hcols]
      rw [List.getD_eq_getElem?_getD, List.getD_eq_getElem?_getD,
        List.getElem?_eq_getElem hi_lt, List.getElem?_eq_getElem hj_lt]
      simp only [Option.getD_some]
      intro he
      exact absurd ((hnd.getElem_inj_iff).1 he) (Nat.ne_of_lt hij)
    have himem : m.cols.getD i "" ∈ df.names := by
      rw [hcols, List.getD_eq_getElem?_getD, List.getElem?_eq_getElem hi_lt]
      simp only [Option.getD_some]
      exact List.getElem_mem _
    unfold apply_correlation_filter DFrame.names
    unfold DFrame.names at himem
    simp only [List.mem_map] at himem ⊢
    obtain ⟨c, hc, hcn⟩ := himem
    refine ⟨c, List.mem_filter.2 ⟨hc, ?_⟩, hcn⟩
    rw [decide_eq_true_eq, hcn]
    simp only [List.mem_singleton]
    exact hine
  · intro c hcmem hcne
    unfold apply_correlation_filter DFrame.names
    unfold DFrame.names at hcmem
    simp only [List.mem_map] at hcmem ⊢
    obtain ⟨c0, hc0, hc0n⟩ := hcmem
    refine ⟨c0, List.mem_filter.2 ⟨hc0, ?_⟩, hc0n⟩
    rw [decide_eq_true_eq, hc0n]
    simp only [List.mem_singleton]
    exact hcne

/-- C3 (witness): a 2-column matrix with one pair at correlation 0.99. -/
theorem claim3_witness :
    identify_vars_to_drop_correlation
        (find_high_correlation_pairs
          (⟨["A", "B"], fun i j => if i = j then 1 else 99/100⟩ : CorrMatrix)
          (9/10)) none (98/100) (95/100) (2/100) = ["B"] ∧
    "B" ∉ (apply_correlation_filter
        (⟨[("A", [some 1]), ("B", [some 2])]⟩ : DFrame) ["B"]).names ∧
    "A" ∈ (apply_correlation_filter
        (⟨[("A", [some 1]), ("B", [some 2])]⟩ : DFrame) ["B"]).names ∧
    ∀ c ∈ (⟨[("A", [some 1]), ("B", [some 2])]⟩ : DFrame).names, c ≠ "B" →
      c ∈ (apply_correlation_filter
        (⟨[("A", [some 1]), ("B", [some 2])]⟩ : DFrame) ["B"]).names :=
  claim3_high_corr_filter (⟨[("A", [some 1]), ("B", [some 2])]⟩ : DFrame)
    (⟨["A", "B"], fun i j => if i = j then 1 else 99/100⟩ : CorrMatrix)
    (by decide) (by decide) 0 1 (by decide) (by decide) (by decide)
    (by
      intro a b hab hbn hcase
      have hbn2 : b < 2 := hbn
      exact absurd ⟨by omega, by omega⟩ hcase)

/-- C8 (counterexample): `step7_duplicate_columns` calls `df.sample(n=...)`
without a `random_state` whenever `len(df) > sample_size`, so two calls
with equal arguments can return different results depending on the hidden
global RNG: sampling row 0 of `dfDup` makes the two columns hash equal and
reports a duplicate group, sampling row 1 reports none. -/
theorem claim8_counterexample :
    step7_duplicate_columns dfDup 1 [0] = [(1, "A"), (1, "B")] ∧
    step7_duplicate_columns dfDup 1 [1] = [] ∧
    step7_duplicate_columns dfDup 1 [0] ≠ step7_duplicate_columns dfDup 1 [1] :=
  ⟨by decide, by decide, by decide⟩

/-- C8 (amended): every step function's result is determined by its
arguments together with the ambient RNG state; `step7_duplicate_columns`
is independent of the RNG exactly when no sampling occurs, i.e. when
`sample_size` is falsy or `len(df) <= sample_size`.  (The other functions
the claim lists draw no randomness at all — `prepare_model_data` seeds
`np.random` with the constant 12345 — so their determinism is the purity
of the embedding.) -/
theorem claim8_no_sampling_deterministic (df : DFrame) (sampleSize : ℕ)
    (idx1 idx2 : List ℕ) (h : sampleSize = 0 ∨ df.numRows ≤ sampleSize) :
    step7_duplicate_columns df sampleSize idx1 =
      step7_duplicate_columns df sampleSize idx2 := by
  have hcond : ¬ (sampleSize ≠ 0 ∧ sampleSize < df.numRows) := by
    rcases h with h | h
    · intro hc; exact hc.1 h
    · intro hc; omega
  have hs : step7Sample df sampleSize idx1 = step7Sample df sampleSize idx2 := by
    unfold step7Sample
    rw [if_neg hcond, if_neg hcond]
  unfold step7_duplicate_columns step7Grouped
  rw [hs]

/-- C8 (witness): with the sample size at least the row count the result
does not depend on the RNG draw. -/
theorem claim8_witness :
    step7_duplicate_columns dfDup 2 [0] = step7_duplicate_columns dfDup 2 [1] :=
  claim8_no_sampling_deterministic dfDup 2 [0] [1] (Or.inr (by decide))

lemma assignGroups_names (l : List (String × String)) (cur : ℕ)
    (prev : Option String) :
    (assignGroups l cur prev).map Prod.snd = l.map Prod.fst := by
  induction l generalizing cur prev with
  | nil => rfl
  | cons p t ih =>
    obtain ⟨name, dig⟩ := p
    unfold assignGroups
    simp only [List.map_cons]
    rw [ih]

lemma step7Sample_names (df : DFrame) (s : ℕ) (idx : List ℕ) :
    (step7Sample df s idx).names = df.names := by
  unfold step7Sample
  split
  · unfold DFrame.names
    rw [List.map_map]
    rfl
  · rfl

lemma step7Grouped_names_perm (df : DFrame) (s : ℕ) (idx : List ℕ) :
    ((step7Grouped df s idx).map Prod.snd).Perm
      (((step7Sample df s idx).cols.filter
        (fun c => c.1 ∉ dpdExclude)).map Prod.fst) := by
  unfold step7Grouped
  rw [assignGroups_names]
  have hperm := List.perm_insertionSort
    (fun (a b : String × String) => a.2.data ≤ b.2.data)
    (((step7Sample df s idx).cols.filter
      (fun c => c.1 ∉ dpdExclude)).map (fun c => (c.1, colDigest c.2)))
  have := hperm.map Prod.fst
  rw [List.map_map] at this
  exact this

lemma step7_names_nodup (df : DFrame) (s : ℕ) (idx : List ℕ)
    (hnd : df.names.Nodup) :
    ((step7_duplicate_columns df s idx).map Prod.snd).Nodup := by
  have hsub0 : (((step7Sample df s idx).cols.filter
      (fun c => c.1 ∉ dpdExclude)).map Prod.fst).Sublist
      (step7Sample df s idx).names :=
    (List.filter_sublist _).map Prod.fst
  have hnd1 : (((step7Sample df s idx).cols.filter
      (fun c => c.1 ∉ dpdExclude)).map Prod.fst).Nodup :=
    hsub0.nodup (by rw [step7Sample_names]; exact hnd)
  have hnd2 : ((step7Grouped df s idx).map Prod.snd).Nodup :=
    ((step7Grouped_names_perm df s idx).symm.nodup hnd1)
  exact ((List.filter_sublist _).map Prod.snd).nodup hnd2

lemma step7_names_mem (df : DFrame) (s : ℕ) (idx : List ℕ) (c : String)
    (hc : c ∈ (step7_duplicate_columns df s idx).map Prod.snd) :
    c ∈ df.names := by
  have h1 : c ∈ (step7Grouped df s idx).map Prod.snd :=
    ((List.filter_sublist _).map Prod.snd).mem hc
  have h2 := (step7Grouped_names_perm df s idx).mem_iff.1 h1
  have h3 := ((List.filter_sublist _).map Prod.fst).mem h2
  have h4 : c ∈ (step7Sample df s idx).names := h3
  rw [step7Sample_names] at h4
  exact h4

lemma step8_keeps (df : DFrame) (drops : List String) (c : String)
    (hc : c ∈ df.names) (hnd : c ∉ drops) :
    c ∈ (step8_drop_duplicates df drops).names := by
  unfold step8_drop_duplicates
  split
  · exact hc
  · unfold DFrame.names at hc ⊢
    simp only [List.mem_map] at hc ⊢
    obtain ⟨p, hp, hpn⟩ := hc
    refine ⟨p, List.mem_filter.2 ⟨hp, ?_⟩, hpn⟩
    rw [decide_eq_true_eq, hpn]
    intro hmem
    exact hnd (List.mem_filter.1 hmem).1

/-- C10: duplicate-column removal keeps a column of every duplicate group:
for every frame with distinct column names, `step7_get_duplicate_list`
drops all but the first column of each group of the
`step7_duplicate_columns` table, so after `step8_drop_duplicates` every
group still has one of its columns in the frame. -/
theorem claim10_keep_one_per_group (df : DFrame) (s : ℕ) (idx : List ℕ)
    (hnd : df.names.Nodup) :
    ∀ g ∈ (step7_duplicate_columns df s idx).map Prod.fst,
      ∃ c, c ∈ ((step7_duplicate_columns df s idx).filter
          (fun r => r.1 = g)).map Prod.snd ∧
        c ∈ (step8_drop_duplicates df
          (step7_get_duplicate_list (step7_duplicate_columns df s idx))).names := by
  intro g hg
  set tbl := step7_duplicate_columns df s idx with htbl
  have hndt : (tbl.map Prod.snd).Nodup := step7_names_nodup df s idx hnd
  -- the group is nonempty
  simp only [List.mem_map] at hg
  obtain ⟨p, hp, hpg⟩ := hg
  have hpf : p ∈ tbl.filter (fun r => r.1 = g) :=
    List.mem_filter.2 ⟨hp, by rw [decide_eq_true_eq, hpg]⟩
  -- take the head of the group
  cases hL : (tbl.filter (fun r => r.1 = g)).map Prod.snd with
  | nil =>
    exact absurd (List.mem_map_of_mem Prod.snd hpf) (by rw [hL]; simp)
  | cons c rest =>
    refine ⟨c, List.mem_cons_self _ _, ?_⟩
    have hcg : (g, c) ∈ tbl := by
      have : c ∈ (tbl.filter (fun r => r.1 = g)).map Prod.snd := by
        rw [hL]; exact List.mem_cons_self _ _
      simp only [List.mem_map] at this
      obtain ⟨q, hq, hqc⟩ := this
      have hq1 := (List.mem_filter.1 hq).2
      rw [decide_eq_true_eq] at hq1
      have := List.mem_of_mem_filter hq
      rwa [show q = (g, c) from Prod.ext hq1 hqc] at this
    apply step8_keeps
    · exact step7_names_mem df s idx c (List.mem_map_of_mem Prod.snd hcg)
    · -- c is the first member of its group, so it is not in the drop list
      intro hdrop
      unfold step7_get_duplicate_list at hdrop
      simp only [List.mem_bind] at hdrop
      obtain ⟨g2, _, hg2⟩ := hdrop
      by_cases hgg : g2 = g
      · subst hgg
        rw [hL] at hg2
        have hnodupL : (c :: rest).Nodup := by
          rw [← hL]
          exact (((List.filter_sublist tbl).map Prod.snd)).nodup hndt
        exact (List.nodup_cons.1 hnodupL).1 hg2
      · have hmem2 : c ∈ (tbl.filter (fun r => r.1 = g2)).map Prod.snd :=
          (List.mem_of_mem_tail hg2)
        simp only [List.mem_map] at hmem2
        obtain ⟨q, hq, hqc⟩ := hmem2
        have hq1 := (List.mem_filter.1 hq).2
        rw [decide_eq_true_eq] at hq1
        have hq2 : (g2, c) ∈ tbl := by
          have := List.mem_of_mem_filter hq
          rwa [show q = (g2, c) from Prod.ext hq1 hqc] at this
        have := List.inj_on_of_nodup_map hndt hcg hq2 rfl
        exact hgg (by injection this.symm)

/-- C10 (witness): on `dfDup` with sampled row 0 the duplicate group keeps
one column. -/
theorem claim10_witness :
    ∃ c, c ∈ ((step7_duplicate_columns dfDup 1 [0]).filter
        (fun r => r.1 = 1)).map Prod.snd ∧
      c ∈ (step8_drop_duplicates dfDup
        (step7_get_duplicate_list (step7_duplicate_columns dfDup 1 [0]))).names :=
  claim10_keep_one_per_group dfDup 1 [0] (by decide) 1 (by decide)

lemma sseVal_nonneg (y : List ℝ) (xs : List (List ℝ)) (c : ℝ) (βs : List ℝ) :
    0 ≤ sseVal y xs c βs :=
  Finset.sum_nonneg (fun _ _ => sq_nonneg _)

lemma sseSet_bddBelow (y : List ℝ) (xs : List (List ℝ)) :
    BddBelow (sseSet y xs) := by
  refine ⟨0, ?_⟩
  rintro s ⟨c, βs, rfl⟩
  exact sseVal_nonneg y xs c βs

/-- Coefficient vector with a single nonzero entry. -/
noncomputable def unitAt (m k : ℕ) (v : ℝ) : List ℝ :=
  (List.range m).map (fun (t : ℕ) => if t = k then v else 0)

lemma unitAt_getD (m k : ℕ) (v : ℝ) (t : ℕ) (ht : t < m) :
    (unitAt m k v).getD t 0 = if t = k then v else 0 := by
  unfold unitAt
  rw [List.getD_eq_getElem?_getD, List.getElem?_map, List.getElem?_range ht]
  rfl

lemma linComb_unit (c v : ℝ) (xs : List (List ℝ)) (k : ℕ)
    (hk : k < xs.length) (t : ℕ) :
    linComb c (unitAt xs.length k v) xs t
      = c + v * (xs.getD k []).getD t 0 := by
  unfold linComb
  congr 1
  rw [Finset.sum_eq_single k]
  · rw [unitAt_getD _ _ _ _ hk, if_pos rfl]
  · intro m hm hmk
    rw [unitAt_getD _ _ _ _ (Finset.mem_range.1 hm), if_neg hmk, zero_mul]
  · intro hk2
    exact absurd (Finset.mem_range.2 hk) hk2

lemma sseMin_eq_zero (y : List ℝ) (xs : List (List ℝ)) (k : ℕ) (a b : ℝ)
    (ha : a ≠ 0) (hk : k < xs.length)
    (hcol : ∀ t, t < y.length →
      (xs.getD k []).getD t 0 = a * y.getD t 0 + b) :
    sseMin y xs = 0 := by
  have h0mem : (0:ℝ) ∈ sseSet y xs := by
    refine ⟨-(b/a), unitAt xs.length k (1/a), ?_⟩
    unfold sseVal
    rw [eq_comm]
    apply Finset.sum_eq_zero
    intro t ht
    rw [linComb_unit _ _ _ _ hk, hcol t (Finset.mem_range.1 ht)]
    field_simp
    ring
  apply le_antisymm
  · exact csInf_le (sseSet_bddBelow y xs) h0mem
  · apply le_csInf ⟨0, h0mem⟩
    rintro s ⟨c, βs, rfl⟩
    exact sseVal_nonneg y xs c βs

lemma sstVal_pos (y : List ℝ) (t1 t2 : ℕ) (h1 : t1 < y.length)
    (h2 : t2 < y.length) (hne : y.getD t1 0 ≠ y.getD t2 0) :
    0 < sstVal y := by
  by_contra hle
  push_neg at hle
  have h0 : sstVal y = 0 :=
    le_antisymm hle (Finset.sum_nonneg fun _ _ => sq_nonneg _)
  have hall := (Finset.sum_eq_zero_iff_of_nonneg
    (fun t _ => sq_nonneg (y.getD t 0 - rMean y))).1 h0
  have e1 := hall t1 (Finset.mem_range.2 h1)
  have e2 := hall t2 (Finset.mem_range.2 h2)
  rw [pow_eq_zero_iff (two_ne_zero), sub_eq_zero] at e1 e2
  exact hne (e1.trans e2.symm)

lemma vifOf_top (y : List ℝ) (xs : List (List ℝ)) (k : ℕ) (a b : ℝ)
    (ha : a ≠ 0) (hk : k < xs.length)
    (hcol : ∀ t, t < y.length →
      (xs.getD k []).getD t 0 = a * y.getD t 0 + b)
    (t1 t2 : ℕ) (h1 : t1 < y.length) (h2 : t2 < y.length)
    (hne : y.getD t1 0 ≠ y.getD t2 0) :
    vifOf y xs = ⊤ := by
  unfold vifOf
  rw [sseMin_eq_zero y xs k a b ha hk hcol, ENNReal.ofReal_zero]
  apply ENNReal.div_zero
  rw [Ne, ENNReal.ofReal_eq_zero, not_le]
  exact sstVal_pos y t1 t2 h1 h2 hne

lemma colR_getD (l : List ℚ) (t : ℕ) :
    (colR l).getD t 0 = ((l.getD t 0 : ℚ) : ℝ) := by
  unfold colR
  rw [List.getD_eq_getElem?_getD, List.getD_eq_getElem?_getD, List.getElem?_map]
  cases l[t]? <;> simp

lemma colR_length (l : List ℚ) : (colR l).length = l.length := by
  unfold colR
  rw [List.length_map]

lemma exists_eraseIdx_getD {α : Type} (d : α) :
    ∀ (l : List α) (i j : ℕ), i < l.length → j < l.length → i ≠ j →
      ∃ k, k < (l.eraseIdx i).length ∧ (l.eraseIdx i).getD k d = l.getD j d
  | [], i, _, hi, _, _ => absurd hi (by simp)
  | _ :: _, 0, 0, _, _, hij => absurd rfl hij
  | _ :: t, 0, j+1, _, hj, _ =>
    ⟨j, by simpa using hj, by simp⟩
  | _ :: t, i+1, 0, _, _, _ =>
    ⟨0, by simp, by simp⟩
  | x :: t, i+1, j+1, hi, hj, hij => by
    obtain ⟨k, hk1, hk2⟩ := exists_eraseIdx_getD d t i j
      (by simpa using hi) (by simpa using hj) (by omega)
    exact ⟨k+1, by simpa using hk1, by simpa using hk2⟩

lemma calculate_vif_getD (df : DFrame) (target : String)
    (exclude : List String) (i : ℕ)
    (hi : i < (vifFeatureCols df target exclude).length) :
    (calculate_vif df target exclude).getD i ("", 0) =
      (((vifFeatureCols df target exclude).getD i ("", [])).1,
        vifOf
          (colR (fillnaMean
            ((vifFeatureCols df target exclude).getD i ("", [])).2))
          (((vifFeatureCols df target exclude).eraseIdx i).map
            (fun c => colR (fillnaMean c.2)))) := by
  unfold calculate_vif
  rw [List.getD_eq_getElem?_getD, List.getElem?_map, List.getElem?_range hi]
  rfl

lemma map_getD_colR (l : List (String × Col)) (k : ℕ) (hk : k < l.length) :
    (l.map (fun c => colR (fillnaMean c.2))).getD k []
      = colR (fillnaMean (l.getD k ("", [])).2) := by
  rw [List.getD_eq_getElem?_getD, List.getD_eq_getElem?_getD,
    List.getElem?_map, List.getElem?_eq_getElem hk]
  rfl

/-- C4 (counterexample): `risk_score` sits on the default key-variable
exclusion list of `identify_vars_to_drop_vif`, so even with an infinite
VIF (certainly exceeding the threshold 10) it is not placed in the drop
list and survives `apply_vif_filter` — refuting "every variable whose VIF
exceeds 10 is placed in the drop list and removed". -/
theorem claim4_counterexample :
    identify_vars_to_drop_vif [("risk_score", ⊤)] 10 none = [] ∧
    (10 : ENNReal) < ⊤ ∧
    (apply_vif_filter dfRisk
      (identify_vars_to_drop_vif [("risk_score", ⊤)] 10 none)).names
      = ["risk_score"] := by
  have hid : identify_vars_to_drop_vif [("risk_score", ⊤)] 10 none = [] := by
    unfold identify_vars_to_drop_vif
    have hgen : ∀ (p : String × ENNReal → Bool),
        p ("risk_score", ⊤) = false →
        (List.filter p [("risk_score", ⊤)]).map Prod.fst = [] := by
      intro p hp
      simp [List.filter, hp]
    apply hgen
    show (decide _ && decide _) = false
    have hB : decide (strUpper ("risk_score", (⊤ : ENNReal)).1 ∉
        (Option.getD none defaultVifExclude).map strUpper) = false :=
      decide_eq_false (fun hP => hP (by decide))
    rw [hB, Bool.and_false]
  refine ⟨hid, ?_, ?_⟩
  · exact lt_top_iff_ne_top.2 (by simp)
  · rw [hid]
    decide

/-- C4 (amended): (a) a perfectly collinear, non-constant pair of
mean-filled feature columns receives an infinite VIF from `calculate_vif`;
(b) with threshold 10, every table entry whose VIF exceeds 10 **and whose
variable is not on the default key-variable exclusion list** is placed in
the drop list by `identify_vars_to_drop_vif` and removed by
`apply_vif_filter`. -/
theorem claim4_vif :
    (∀ (df : DFrame) (target : String) (exclude : List String) (i j : ℕ)
        (a b : ℚ),
      i < (vifFeatureCols df target exclude).length →
      j < (vifFeatureCols df target exclude).length → i ≠ j → a ≠ 0 →
      (∀ t, t < (fillnaMean
          ((vifFeatureCols df target exclude).getD i ("", [])).2).length →
        (fillnaMean
          ((vifFeatureCols df target exclude).getD j ("", [])).2).getD t 0
          = a * (fillnaMean
            ((vifFeatureCols df target exclude).getD i ("", [])).2).getD t 0
            + b) →
      (∃ t1 t2,
        t1 < (fillnaMean
          ((vifFeatureCols df target exclude).getD i ("", [])).2).length ∧
        t2 < (fillnaMean
          ((vifFeatureCols df target exclude).getD i ("", [])).2).length ∧
        (fillnaMean
          ((vifFeatureCols df target exclude).getD i ("", [])).2).getD t1 0
          ≠ (fillnaMean
            ((vifFeatureCols df target exclude).getD i ("", [])).2).getD t2 0) →
      ((calculate_vif df target exclude).getD i ("", 0)).2 = ⊤) ∧
    (∀ (vifDf : List (String × ENNReal)) (df : DFrame)
        (v : String × ENNReal),
      v ∈ vifDf → 10 < v.2 →
      strUpper v.1 ∉ defaultVifExclude.map strUpper →
      v.1 ∈ identify_vars_to_drop_vif vifDf 10 none ∧
      v.1 ∉ (apply_vif_filter df
        (identify_vars_to_drop_vif vifDf 10 none)).names) := by
  constructor
  · intro df target exclude i j a b hi hj hij ha hcol hnc
    rw [calculate_vif_getD df target exclude i hi]
    obtain ⟨k, hk1, hk2⟩ := exists_eraseIdx_getD ("", ([] : Col))
      (vifFeatureCols df target exclude) i j hi hj hij
    obtain ⟨t1, t2, ht1, ht2, hne⟩ := hnc
    show vifOf _ _ = ⊤
    apply vifOf_top _ _ k ((a : ℚ) : ℝ) ((b : ℚ) : ℝ)
      (by exact_mod_cast ha) (by rw [List.length_map]; exact hk1)
      ?_ t1 t2
      (by rw [colR_length]; exact ht1)
      (by rw [colR_length]; exact ht2)
      (by rw [colR_getD, colR_getD]; exact_mod_cast hne)
    intro t ht
    rw [map_getD_colR _ _ hk1, hk2, colR_getD, colR_getD]
    rw [colR_length] at ht
    rw [hcol t ht]
    push_cast
    ring
  · intro vifDf df v hv h10 hexcl
    have hmem1 : v.1 ∈ identify_vars_to_drop_vif vifDf 10 none := by
      unfold identify_vars_to_drop_vif
      apply List.mem_map_of_mem
      apply List.mem_filter.2
      refine ⟨hv, ?_⟩
      rw [Bool.and_eq_true]
      exact ⟨decide_eq_true h10, decide_eq_true hexcl⟩
    refine ⟨hmem1, ?_⟩
    intro habs
    unfold apply_vif_filter DFrame.names at habs
    simp only [List.mem_map] at habs
    obtain ⟨c, hc, hcn⟩ := habs
    have hpred := (List.mem_filter.1 hc).2
    rw [decide_eq_true_eq, hcn] at hpred
    exact hpred hmem1

/-- C4 (witness): in `dfVif` the feature `v = 2 * u` makes `u`'s VIF
infinite, and a non-excluded variable `x` with infinite VIF is dropped. -/
theorem claim4_witness :
    ((calculate_vif dfVif "default_flag" []).getD 0 ("", 0)).2 = ⊤ ∧
    ("x" ∈ identify_vars_to_drop_vif [("x", ⊤)] 10 none ∧
      "x" ∉ (apply_vif_filter dfX
        (identify_vars_to_drop_vif [("x", ⊤)] 10 none)).names) :=
  ⟨claim4_vif.1 dfVif "default_flag" [] 0 1 2 0 (by decide) (by decide)
      (by decide) (by decide)
      (by
        intro t ht
        have ht3 : t < 3 := ht
        interval_cases t <;> decide)
      ⟨0, 1, by decide, by decide, by decide⟩,
   claim4_vif.2 [("x", ⊤)] dfX ("x", ⊤) (List.mem_singleton_self _)
      (lt_top_iff_ne_top.2 (by simp)) (by decide)⟩

end Portfolio
